import Mathlib

/-!
Verification development for `brain_tumor_segmentation/dataset.py`
(class `DICOMProcessor`).

The Python source is shallowly embedded as follows.

* A DICOM file on disk is modelled by `DicomContent`: two readability
  flags (`headerOk` for `pydicom.dcmread(file, stop_before_pixels=True)`,
  `pixelsOk` for the full `dcmread` plus `pixel_array` access), an error
  message `err` carried by the exception when a read fails, the twelve
  optional header attributes read by `extract_dicom_metadata`, and the
  two-dimensional integer pixel array `pixels`.
* The filesystem is a `FileSystem` record of the query functions the
  source calls: `content` (what `dcmread` sees at a path), `pathExists`
  (`os.path.exists`), `walk` (`os.walk`, already flattened to the list of
  `(root, files)` pairs it yields), `listdir` (`os.listdir`) and `isDir`
  (`os.path.isdir`).
* Python floats are idealised as exact rationals (and as real numbers
  for the two transcendental outputs, `np.std`'s square root and the
  `np.log2` entropy).  Since real arithmetic is noncomputable in Lean,
  each extractor record stores the exact rational/discrete data and the
  real-valued dictionary entries are derived projections.
* Python dictionaries with dynamic keys (the metadata record) are
  insertion-ordered association lists; `logger.error` calls are modelled
  by companion `..._log` functions returning the emitted entries.
-/

namespace BraTS

/-- Splitting a character list at a separator character (strings are
handled through their character lists throughout, because the byte-level
primitives of `String` do not reduce in the kernel). -/
def splitChar (c : Char) : List Char → List (List Char)
  | [] => [[]]
  | x :: xs =>
    let groups := splitChar c xs
    if x = c then [] :: groups
    else
      match groups with
      | [] => [[x]]
      | g :: gs => (x :: g) :: gs

/-- Suffix test on strings (model of `str.endswith`). -/
def strEndsWith (s suffix : String) : Bool :=
  suffix.data.isSuffixOf s.data

/-- Model of `os.path.join` for the two-argument calls made by the source
(plain concatenation with a single separator, as on POSIX). -/
def ospath_join (a b : String) : String :=
  if a = "" then b
  else if strEndsWith a "/" then a ++ b
  else a ++ "/" ++ b

/-- Model of `os.path.basename`: the component after the last slash. -/
def ospath_basename (p : String) : String :=
  String.mk ((splitChar '/' p.data).getLastD p.data)

/-- Content of one path as seen by the DICOM reader: readability flags,
the exception text for failed reads, the header attributes used by the
metadata extractor, and the integer pixel matrix. -/
structure DicomContent where
  headerOk : Bool
  pixelsOk : Bool
  err : String
  patientID : Option String
  studyDate : Option String
  modality : Option String
  manufacturer : Option String
  magneticFieldStrength : Option String
  sliceThickness : Option String
  pixelSpacing : Option String
  imageType : Option String
  bodyPartExamined : Option String
  contrastBolusAgent : Option String
  repetitionTime : Option String
  echoTime : Option String
  pixels : List (List ℤ)

/-- The filesystem interface consumed by `DICOMProcessor`. -/
structure FileSystem where
  content : String → DicomContent
  pathExists : String → Bool
  walk : String → List (String × List String)
  listdir : String → List String
  isDir : String → Bool

/-- The fixed key list `metadata_keys` of `extract_dicom_metadata`. -/
def metadata_keys : List String :=
  ["PatientID", "StudyDate", "Modality", "Manufacturer", "MagneticFieldStrength",
   "SliceThickness", "PixelSpacing", "ImageType", "BodyPartExamined",
   "ContrastBolusAgent", "RepetitionTime", "EchoTime"]

/-- Model of `getattr(ds, key, None)` for the twelve metadata keys. -/
def headerAttr (ds : DicomContent) (key : String) : Option String :=
  if key = "PatientID" then ds.patientID
  else if key = "StudyDate" then ds.studyDate
  else if key = "Modality" then ds.modality
  else if key = "Manufacturer" then ds.manufacturer
  else if key = "MagneticFieldStrength" then ds.magneticFieldStrength
  else if key = "SliceThickness" then ds.sliceThickness
  else if key = "PixelSpacing" then ds.pixelSpacing
  else if key = "ImageType" then ds.imageType
  else if key = "BodyPartExamined" then ds.bodyPartExamined
  else if key = "ContrastBolusAgent" then ds.contrastBolusAgent
  else if key = "RepetitionTime" then ds.repetitionTime
  else if key = "EchoTime" then ds.echoTime
  else none

/-- A metadata dictionary: insertion-ordered keys with scalar-or-null
values (header scalars are modelled as opaque strings). -/
abbrev MetadataRecord : Type := List (String × Option String)

/-- One `logger.error` entry: the file path and the exception text. -/
abbrev LogEntry : Type := String × String

/-- Embedding of `DICOMProcessor.extract_dicom_metadata`: on a readable
header, the dict comprehension over `metadata_keys` followed by the
`DCMFileName` insertion; on a read failure, the `None` sentinel. -/
def extract_dicom_metadata (fs : FileSystem) (dicom_file : String) :
    Option MetadataRecord :=
  let ds := fs.content dicom_file
  if ds.headerOk then
    some (metadata_keys.map (fun key => (key, headerAttr ds key)) ++
      [("DCMFileName", some (ospath_basename dicom_file))])
  else
    none

/-- The `logger.error` effect of `extract_dicom_metadata` (the `except`
branch logs the file path and the underlying error). -/
def extract_dicom_metadata_log (fs : FileSystem) (dicom_file : String) :
    List LogEntry :=
  let ds := fs.content dicom_file
  if ds.headerOk then [] else [(dicom_file, ds.err)]

/-- Model of `ds.pixel_array.astype(np.float32)` followed by the implicit
flattening performed by the global reductions: the pixel matrix as a flat
rational list (row-major, as NumPy iterates). -/
def flatPixels (px : List (List ℤ)) : List ℚ :=
  px.flatten.map (fun z => (z : ℚ))

/-- Minimum of a pixel buffer (`cv2.minMaxIdx` inside `cv2.normalize`);
`0` on the empty buffer, which the source never queries. -/
def bufMin : List ℚ → ℚ
  | [] => 0
  | x :: xs => xs.foldl min x

/-- Maximum of a pixel buffer. -/
def bufMax : List ℚ → ℚ
  | [] => 0
  | x :: xs => xs.foldl max x

/-- Embedding of `cv2.normalize(src, None, 0, 255, cv2.NORM_MINMAX)`:
`dst = src*scale + shift` with `scale = (255-0)/(smax-smin)` (or `0` when
the range is degenerate, as in OpenCV) and `shift = 0 - smin*scale`. -/
def normalizeMinMax (xs : List ℚ) : List ℚ :=
  let smin := bufMin xs
  let smax := bufMax xs
  let scale : ℚ := if smax - smin > 0 then 255 / (smax - smin) else 0
  let shift : ℚ := 0 - smin * scale
  xs.map (fun v => v * scale + shift)

/-- Model of `.astype(np.uint8)` on the normalized buffer (truncation of
the nonnegative in-range values produced by `NORM_MINMAX`). -/
def toUint8 (q : ℚ) : ℕ := (⌊q⌋ : ℤ).toNat

/-- The rescaled 8-bit buffer the statistics extractor works on. -/
def rescaledBuffer (px : List (List ℤ)) : List ℕ :=
  (normalizeMinMax (flatPixels px)).map toUint8

/-- Mean of a rational list (`np.mean`); population convention. -/
def listMean (xs : List ℚ) : ℚ := xs.sum / xs.length

/-- Population variance of a rational list; `np.std` is its square root. -/
def listVar (xs : List ℚ) : ℚ :=
  ((xs.map (fun x => (x - listMean xs) ^ 2)).sum) / xs.length

/-- Embedding of `cv2.calcHist([img], [0], None, [256], [0, 256])` on an
8-bit image: bin `v` counts the pixels equal to `v`. -/
def calcHist256 (buf : List ℕ) : List ℕ :=
  (List.range 256).map (fun v => buf.count v)

/-- The statistics record.  The source returns the Python dict
`{"MeanIntensity": m, "StdIntensity": s, "Entropy": e}`; the first entry
is the exact rational mean, and because real arithmetic is noncomputable
in Lean the record stores the exact variance and histogram from which the
two real-valued entries `StatsRecord.stdIntensity` (`np.std`, the square
root of the population variance) and `StatsRecord.entropyValue` (the
`np.log2` sum) are derived below. -/
structure StatsRecord where
  meanIntensity : ℚ
  varIntensity : ℚ
  hist : List ℕ

/-- The fixed key set of the statistics dict literal. -/
def statsDictKeys : List String := ["MeanIntensity", "StdIntensity", "Entropy"]

/-- The `1e-7` guard added to each histogram count before `np.log2`. -/
def histEps : ℚ := 1 / 10000000

/-- The entropy line of `extract_image_statistics`:
`-np.sum(hist * np.log2(hist + 1e-7))` over raw (unnormalized) counts. -/
noncomputable def entropyOfHist (hist : List ℕ) : ℝ :=
  -((hist.map (fun c : ℕ => (c : ℝ) * Real.logb 2 ((c : ℝ) + (histEps : ℝ)))).sum)

/-- The `StdIntensity` dict entry: `np.std` of the rescaled buffer. -/
noncomputable def StatsRecord.stdIntensity (r : StatsRecord) : ℝ :=
  Real.sqrt (r.varIntensity : ℝ)

/-- The `Entropy` dict entry of the statistics record. -/
noncomputable def StatsRecord.entropyValue (r : StatsRecord) : ℝ :=
  entropyOfHist r.hist

/-- Embedding of `DICOMProcessor.extract_image_statistics`: full read,
min-max rescale to 8-bit, then mean, population standard deviation and
the raw-count entropy of the 256-bin histogram; `None` on read failure. -/
def extract_image_statistics (fs : FileSystem) (dicom_file : String) :
    Option StatsRecord :=
  let ds := fs.content dicom_file
  if ds.pixelsOk then
    let buf := (rescaledBuffer ds.pixels).map (fun v : ℕ => (v : ℚ))
    some { meanIntensity := listMean buf
           varIntensity := listVar buf
           hist := calcHist256 (rescaledBuffer ds.pixels) }
  else
    none

/-- The `logger.error` effect of `extract_image_statistics`. -/
def extract_image_statistics_log (fs : FileSystem) (dicom_file : String) :
    List LogEntry :=
  let ds := fs.content dicom_file
  if ds.pixelsOk then [] else [(dicom_file, ds.err)]

/-- Model of `ds.pixel_array.astype(np.uint8)` in the texture extractor:
a direct elementwise cast (wrap modulo 256), with no min-max rescaling. -/
def u8cast (px : List (List ℤ)) : List (List ℕ) :=
  px.map (fun row => row.map (fun z => (z % 256).toNat))

/-- Horizontally adjacent ordered pixel pairs within one row (offset
distance 1, angle 0). -/
def rowPairs : List ℕ → List (ℕ × ℕ)
  | a :: b :: rest => (a, b) :: rowPairs (b :: rest)
  | _ => []

/-- All horizontally adjacent ordered pixel pairs of an image. -/
def hPairs (img : List (List ℕ)) : List (ℕ × ℕ) :=
  img.flatMap rowPairs

/-- Embedding of `skimage.feature.graycomatrix(img, distances=[1],
angles=[0], levels=256, symmetric=True, normed=True)`: the raw
co-occurrence counts, plus the transpose (symmetric accumulation),
divided by the total accumulated count. -/
def graycomatrix (img : List (List ℕ)) : Fin 256 → Fin 256 → ℚ :=
  let C : Fin 256 → Fin 256 → ℕ := fun a b => (hPairs img).count ((a : ℕ), (b : ℕ))
  let S : Fin 256 → Fin 256 → ℕ := fun a b => C a b + C b a
  let total : ℕ := ∑ a : Fin 256, ∑ b : Fin 256, S a b
  fun a b => (S a b : ℚ) / (total : ℚ)

/-- The texture record.  The source returns the Python dict of the four
`graycoprops(glcm, _)[0, 0]` scalars; the record stores the normalized
co-occurrence matrix they are all derived from, and the four dictionary
entries are the projections `glcmContrast`, `glcmCorrelation`,
`glcmEnergy` and `glcmHomogeneity` defined below. -/
structure GlcmRecord where
  glcm : Fin 256 → Fin 256 → ℚ

/-- The fixed key set of the texture dict literal. -/
def glcmDictKeys : List String :=
  ["GLCM_Contrast", "GLCM_Correlation", "GLCM_Energy", "GLCM_Homogeneity"]

/-- Embedding of `graycoprops(P, 'contrast')[0, 0]`. -/
def glcmContrast (P : Fin 256 → Fin 256 → ℚ) : ℚ :=
  ∑ i : Fin 256, ∑ j : Fin 256, P i j * ((i : ℚ) - (j : ℚ)) ^ 2

/-- Embedding of `graycoprops(P, 'homogeneity')[0, 0]`. -/
def glcmHomogeneity (P : Fin 256 → Fin 256 → ℚ) : ℚ :=
  ∑ i : Fin 256, ∑ j : Fin 256, P i j / (1 + ((i : ℚ) - (j : ℚ)) ^ 2)

/-- The angular second moment `np.sum(P ** 2)`; energy is its root. -/
def glcmAsm (P : Fin 256 → Fin 256 → ℚ) : ℚ :=
  ∑ i : Fin 256, ∑ j : Fin 256, P i j ^ 2

/-- Embedding of `graycoprops(P, 'energy')[0, 0]`. -/
noncomputable def glcmEnergy (P : Fin 256 → Fin 256 → ℚ) : ℝ :=
  Real.sqrt ((glcmAsm P : ℚ) : ℝ)

/-- Marginal mean over the first index, `np.sum(I * P)`. -/
def glcmMuI (P : Fin 256 → Fin 256 → ℚ) : ℚ :=
  ∑ i : Fin 256, ∑ j : Fin 256, (i : ℚ) * P i j

/-- Marginal mean over the second index, `np.sum(J * P)`. -/
def glcmMuJ (P : Fin 256 → Fin 256 → ℚ) : ℚ :=
  ∑ i : Fin 256, ∑ j : Fin 256, (j : ℚ) * P i j

/-- Marginal variance over the first index. -/
def glcmVarI (P : Fin 256 → Fin 256 → ℚ) : ℚ :=
  ∑ i : Fin 256, ∑ j : Fin 256, P i j * ((i : ℚ) - glcmMuI P) ^ 2

/-- Marginal variance over the second index. -/
def glcmVarJ (P : Fin 256 → Fin 256 → ℚ) : ℚ :=
  ∑ i : Fin 256, ∑ j : Fin 256, P i j * ((j : ℚ) - glcmMuJ P) ^ 2

/-- Covariance term of `graycoprops(P, 'correlation')`. -/
def glcmCov (P : Fin 256 → Fin 256 → ℚ) : ℚ :=
  ∑ i : Fin 256, ∑ j : Fin 256,
    P i j * (((i : ℚ) - glcmMuI P) * ((j : ℚ) - glcmMuJ P))

/-- Embedding of `graycoprops(P, 'correlation')[0, 0]`: `1` where a
marginal standard deviation vanishes (skimage's degenerate mask, with the
`1e-15` float threshold idealised to exact zero), else the normalized
covariance. -/
noncomputable def glcmCorrelation (P : Fin 256 → Fin 256 → ℚ) : ℝ :=
  if glcmVarI P = 0 ∨ glcmVarJ P = 0 then 1
  else ((glcmCov P : ℚ) : ℝ) /
    (Real.sqrt ((glcmVarI P : ℚ) : ℝ) * Real.sqrt ((glcmVarJ P : ℚ) : ℝ))

/-- Embedding of `DICOMProcessor.extract_glcm_features`: full read,
direct 8-bit cast, co-occurrence matrix with distance 1, angle 0, 256
levels, symmetric and normalized; `None` on read failure. -/
def extract_glcm_features (fs : FileSystem) (dicom_file : String) :
    Option GlcmRecord :=
  let ds := fs.content dicom_file
  if ds.pixelsOk then
    some { glcm := graycomatrix (u8cast ds.pixels) }
  else
    none

/-- The `logger.error` effect of `extract_glcm_features`. -/
def extract_glcm_features_log (fs : FileSystem) (dicom_file : String) :
    List LogEntry :=
  let ds := fs.content dicom_file
  if ds.pixelsOk then [] else [(dicom_file, ds.err)]

/-- Python truthiness of a dictionary: nonempty. -/
def dictTruthy {α : Type} (entries : List α) : Bool :=
  !entries.isEmpty

/-- Truthiness of `metadata` in `if metadata and image_stats and
glcm_features:` (`None` is falsy, a dict is truthy iff nonempty). -/
def metaTruthy : Option MetadataRecord → Bool
  | none => false
  | some m => dictTruthy m

/-- Truthiness of `image_stats` (the dict literal has the three fixed
keys `statsDictKeys`). -/
def statsTruthy : Option StatsRecord → Bool
  | none => false
  | some _ => dictTruthy statsDictKeys

/-- Truthiness of `glcm_features` (the dict literal has the four fixed
keys `glcmDictKeys`). -/
def glcmTruthy : Option GlcmRecord → Bool
  | none => false
  | some _ => dictTruthy glcmDictKeys

/-- One output row of the directory aggregator:
`{**metadata, **image_stats, **glcm_features}`.  The three key sets are
disjoint, so the merged dict is the triple of the three records. -/
structure FeatureRow where
  metadata : MetadataRecord
  stats : StatsRecord
  glcm : GlcmRecord

/-- Column labels of a row, in merged-dict insertion order. -/
def FeatureRow.columns (r : FeatureRow) : List String :=
  r.metadata.map Prod.fst ++ statsDictKeys ++ glcmDictKeys

/-- The gating condition of `process_dicom_directory`:
`if metadata and image_stats and glcm_features:`. -/
def rowGate (fs : FileSystem) (dicom_path : String) : Bool :=
  metaTruthy (extract_dicom_metadata fs dicom_path) &&
  statsTruthy (extract_image_statistics fs dicom_path) &&
  glcmTruthy (extract_glcm_features fs dicom_path)

/-- The body of `process_dicom_directory` applied to the list of
`(root, files)` pairs yielded by `os.walk`: for every file whose name
ends in `.dcm`, run the three extractors on the joined path and append
the merged row when the gate passes. -/
def process_walk (fs : FileSystem) (walkList : List (String × List String)) :
    List FeatureRow :=
  walkList.flatMap (fun rootFiles =>
    rootFiles.2.filterMap (fun file =>
      if strEndsWith file ".dcm" then
        let dicom_path := ospath_join rootFiles.1 file
        if rowGate fs dicom_path then
          match extract_dicom_metadata fs dicom_path,
                extract_image_statistics fs dicom_path,
                extract_glcm_features fs dicom_path with
          | some m, some s, some g => some ⟨m, s, g⟩
          | _, _, _ => none
        else none
      else none))

/-- Embedding of `DICOMProcessor.process_dicom_directory`. -/
def process_dicom_directory (fs : FileSystem) (directory : String) :
    List FeatureRow :=
  process_walk fs (fs.walk directory)

/-- The fixed scan-type list `self.scan_types`. -/
def scan_types : List String := ["FLAIR", "T1w", "T1wCE", "T2w"]

/-- Membership of a label in a DataFrame's columns (`'PatientID' not in
dicom_features`): the columns are the union of the rows' keys, so a label
is a column iff some row carries it. -/
def hasColumn (rows : List FeatureRow) (label : String) : Bool :=
  rows.any (fun r => r.columns.contains label)

/-- One per-scan-type table produced by `process_subject`: the feature
rows, the conditionally injected constant `SubjectID` column, and the
always injected constant `ScanType` column.  Constant columns assigned to
an empty DataFrame have zero rows, so the stored constants only label
rows that exist. -/
structure ScanTable where
  rows : List FeatureRow
  subjectID : Option String
  scanType : String

/-- Embedding of `DICOMProcessor.process_subject`: for each scan type in
the fixed order, if the subdirectory exists, process it, inject
`SubjectID` when the table has no `PatientID` column, label it with
`ScanType`, and append it; missing subdirectories contribute nothing. -/
def process_subject (fs : FileSystem) (subject_path : String) : List ScanTable :=
  let subject_id := ospath_basename subject_path
  scan_types.filterMap (fun scan_type =>
    let dicom_dir := ospath_join subject_path scan_type
    if fs.pathExists dicom_dir then
      let dicom_features := process_dicom_directory fs dicom_dir
      some { rows := dicom_features
             subjectID := if hasColumn dicom_features "PatientID" then none
                          else some subject_id
             scanType := scan_type }
    else
      none)

/-- Embedding of `scan_df['ScanType'].unique()[0]`: the `ScanType` column
holds the constant label once per row, so its `unique()` array is the
singleton label for a nonempty table and empty for an empty table, where
indexing it at 0 raises `IndexError`. -/
def uniqueFirstScanType (t : ScanTable) : Except String String :=
  if t.rows.isEmpty then
    Except.error "IndexError: index 0 is out of bounds for axis 0 with size 0"
  else
    Except.ok t.scanType

/-- One step of filling `scan_types_dict`: read the table's scan-type
label (which can raise) and append the table to that bucket. -/
def regroupStep (d : String → List ScanTable) (t : ScanTable) :
    Except String (String → List ScanTable) := do
  let st ← uniqueFirstScanType t
  Except.ok (fun k => if k = st then d k ++ [t] else d k)

/-- Embedding of `pd.concat(tables)`: raises `ValueError` on an empty
list, else concatenates the rows. -/
def pdConcat (tables : List ScanTable) : Except String (List FeatureRow) :=
  if tables.isEmpty then
    Except.error "ValueError: No objects to concatenate"
  else
    Except.ok (tables.flatMap ScanTable.rows)

/-- The subject list of `process_all_subjects_parallel`: immediate
subdirectories of the root. -/
def subjectDirs (fs : FileSystem) (root_directory : String) : List String :=
  (fs.listdir root_directory).filterMap (fun subdir =>
    if fs.isDir (ospath_join root_directory subdir) then
      some (ospath_join root_directory subdir)
    else none)

/-- All per-scan-type tables of a run, in traversal order (the nested
`for subject_results in results: for scan_df in subject_results:` loops;
`pool.imap` yields the results in submission order). -/
def allScanTables (fs : FileSystem) (root_directory : String) : List ScanTable :=
  (subjectDirs fs root_directory).flatMap (process_subject fs)

/-- Embedding of `DICOMProcessor.process_all_subjects_parallel`: map
`process_subject` over the subjects (via the order-preserving
`pool.imap`), regroup the tables by their `ScanType` label, then return
the dict of per-scan-type concatenations, as an ordered association
list.  Exceptions of the regrouping and concatenation stages surface as
`Except.error`. -/
def process_all_subjects_parallel (fs : FileSystem) (root_directory : String) :
    Except String (List (String × List FeatureRow)) := do
  let dict ← (allScanTables fs root_directory).foldlM regroupStep (fun _ => [])
  scan_types.mapM (fun scan_type => do
    let rows ← pdConcat (dict scan_type)
    Except.ok (scan_type, rows))

/-- Formulation of the Directory Aggregator's output following the
spec's words, for comparison with `process_walk`: one row per file whose
name ends in the imaging extension and for which all three extractors
return a non-sentinel record, the row being the union of the three
records; no row otherwise. -/
def specDirRows (fs : FileSystem) (walkList : List (String × List String)) :
    List FeatureRow :=
  walkList.flatMap (fun rootFiles =>
    rootFiles.2.filterMap (fun file =>
      if strEndsWith file ".dcm" then
        let p := ospath_join rootFiles.1 file
        match extract_dicom_metadata fs p, extract_image_statistics fs p,
              extract_glcm_features fs p with
        | some m, some s, some g => some ⟨m, s, g⟩
        | _, _, _ => none
      else none))

/-- Formulation of one co-occurrence matrix entry following the spec's
words: the two directed adjacency counts of the unordered pair, divided
by twice the number of adjacent pairs. -/
def specGlcmEntry (img : List (List ℕ)) (a b : Fin 256) : ℚ :=
  (((hPairs img).count ((a : ℕ), (b : ℕ)) +
    (hPairs img).count ((b : ℕ), (a : ℕ)) : ℕ) : ℚ) /
  (2 * ((hPairs img).length : ℚ))

/-- A fully readable file: header fields partially set, pixel values
spanning the range 0–300 (so the 8-bit cast of 300 wraps to 44 while the
min-max rescale maps 300 to 255). -/
def goodContent : DicomContent where
  headerOk := true
  pixelsOk := true
  err := ""
  patientID := some "P001"
  studyDate := some "20210101"
  modality := some "MR"
  manufacturer := none
  magneticFieldStrength := none
  sliceThickness := none
  pixelSpacing := none
  imageType := none
  bodyPartExamined := none
  contrastBolusAgent := none
  repetitionTime := none
  echoTime := none
  pixels := [[0, 100], [200, 300]]

/-- A corrupt file: both reads raise. -/
def badContent : DicomContent where
  headerOk := false
  pixelsOk := false
  err := "file truncated"
  patientID := none
  studyDate := none
  modality := none
  manufacturer := none
  magneticFieldStrength := none
  sliceThickness := none
  pixelSpacing := none
  imageType := none
  bodyPartExamined := none
  contrastBolusAgent := none
  repetitionTime := none
  echoTime := none
  pixels := []

/-- A readable file with a constant image (every pixel equal). -/
def flatContent : DicomContent :=
  { goodContent with pixels := [[5, 5], [5, 5]] }

/-- A filesystem every path of which holds `goodContent`. -/
def fsGood : FileSystem where
  content := fun _ => goodContent
  pathExists := fun _ => true
  walk := fun d => [(d, ["a.dcm", "b.dcm"])]
  listdir := fun _ => []
  isDir := fun _ => true

/-- A filesystem every path of which holds `badContent`. -/
def fsBad : FileSystem where
  content := fun _ => badContent
  pathExists := fun _ => true
  walk := fun d => [(d, ["c.dcm"])]
  listdir := fun _ => []
  isDir := fun _ => true

/-- A filesystem every path of which holds the constant image. -/
def fsFlat : FileSystem where
  content := fun _ => flatContent
  pathExists := fun _ => true
  walk := fun d => [(d, ["f.dcm"])]
  listdir := fun _ => []
  isDir := fun _ => true

/-- A root directory with no subject subdirectories at all. -/
def fsEmptyRoot : FileSystem where
  content := fun _ => goodContent
  pathExists := fun _ => false
  walk := fun _ => []
  listdir := fun _ => []
  isDir := fun _ => false

/-- A root with one subject `S1` whose only scan-type subdirectory
`R/S1/FLAIR` exists but contains no files. -/
def fsEmptyScan : FileSystem where
  content := fun _ => goodContent
  pathExists := fun p => p = "R/S1/FLAIR"
  walk := fun d => [(d, [])]
  listdir := fun r => if r = "R" then ["S1"] else []
  isDir := fun _ => true

/-- A root with one subject `S1` whose only scan-type subdirectory
`R/S1/FLAIR` exists and contains a single corrupt file. -/
def fsCorrupt : FileSystem where
  content := fun _ => badContent
  pathExists := fun p => p = "R/S1/FLAIR"
  walk := fun d => [(d, ["c.dcm"])]
  listdir := fun r => if r = "R" then ["S1"] else []
  isDir := fun _ => true

/-- A root with subjects `S1`, `S2`, every scan-type directory of which
exists and contains one readable file. -/
def fsPerm1 : FileSystem where
  content := fun _ => goodContent
  pathExists := fun _ => true
  walk := fun d => [(d, ["a.dcm"])]
  listdir := fun r => if r = "R" then ["S1", "S2"] else []
  isDir := fun _ => true

/-- The same tree as `fsPerm1` with the subjects enumerated in the
opposite order. -/
def fsPerm2 : FileSystem where
  content := fun _ => goodContent
  pathExists := fun _ => true
  walk := fun d => [(d, ["a.dcm"])]
  listdir := fun r => if r = "R" then ["S2", "S1"] else []
  isDir := fun _ => true

/-- The rows of the scan-type bucket a run assembles, in traversal
order: the concatenation of the rows of every table labelled with the
scan type. -/
def bucketRows (fs : FileSystem) (root_directory scan_type : String) :
    List FeatureRow :=
  ((allScanTables fs root_directory).filter
    (fun t => scan_type = t.scanType)).flatMap ScanTable.rows

/-- The `DCMFileName` value stored in a row's metadata record. -/
def rowFileName (r : FeatureRow) : Option String :=
  match r.metadata.lookup "DCMFileName" with
  | some v => v
  | none => none

/-- The table `process_subject` builds for one existing scan-type
subdirectory (the loop body after the `os.path.exists` test). -/
def subjectTable (fs : FileSystem) (subject_path scan_type : String) :
    ScanTable :=
  let dicom_features := process_dicom_directory fs (ospath_join subject_path scan_type)
  { rows := dicom_features
    subjectID := if hasColumn dicom_features "PatientID" then none
                 else some (ospath_basename subject_path)
    scanType := scan_type }

/-! Helper lemmas. -/

theorem meta_isSome (fs : FileSystem) (p : String) :
    (extract_dicom_metadata fs p).isSome = (fs.content p).headerOk := by
  unfold extract_dicom_metadata
  cases h : (fs.content p).headerOk <;> simp [h]

theorem stats_isSome (fs : FileSystem) (p : String) :
    (extract_image_statistics fs p).isSome = (fs.content p).pixelsOk := by
  unfold extract_image_statistics
  cases h : (fs.content p).pixelsOk <;> simp [h]

theorem glcm_isSome (fs : FileSystem) (p : String) :
    (extract_glcm_features fs p).isSome = (fs.content p).pixelsOk := by
  unfold extract_glcm_features
  cases h : (fs.content p).pixelsOk <;> simp [h]

theorem metaTruthy_eq_isSome (fs : FileSystem) (p : String) :
    metaTruthy (extract_dicom_metadata fs p) =
      (extract_dicom_metadata fs p).isSome := by
  unfold extract_dicom_metadata
  cases h : (fs.content p).headerOk <;>
    simp [h, metaTruthy, dictTruthy, metadata_keys]

theorem statsTruthy_eq_isSome (fs : FileSystem) (p : String) :
    statsTruthy (extract_image_statistics fs p) =
      (extract_image_statistics fs p).isSome := by
  unfold extract_image_statistics
  cases h : (fs.content p).pixelsOk <;>
    simp [h, statsTruthy, dictTruthy, statsDictKeys]

theorem glcmTruthy_eq_isSome (fs : FileSystem) (p : String) :
    glcmTruthy (extract_glcm_features fs p) =
      (extract_glcm_features fs p).isSome := by
  unfold extract_glcm_features
  cases h : (fs.content p).pixelsOk <;>
    simp [h, glcmTruthy, dictTruthy, glcmDictKeys]

theorem rowGate_eq_isSome (fs : FileSystem) (p : String) :
    rowGate fs p =
      ((extract_dicom_metadata fs p).isSome &&
       (extract_image_statistics fs p).isSome &&
       (extract_glcm_features fs p).isSome) := by
  unfold rowGate
  rw [metaTruthy_eq_isSome, statsTruthy_eq_isSome, glcmTruthy_eq_isSome]

theorem filterMap_if_eq_map_filter {α β : Type} (p : α → Bool) (f : α → β) :
    ∀ l : List α,
      l.filterMap (fun x => if p x then some (f x) else none) =
        (l.filter p).map f
  | [] => rfl
  | x :: xs => by
    by_cases h : p x <;>
      simp [List.filterMap_cons, List.filter_cons, h,
        filterMap_if_eq_map_filter p f xs]

theorem length_filterMap_of_isSome {α β : Type} (f : α → Option β) :
    ∀ l : List α, (∀ x ∈ l, (f x).isSome = true) →
      (l.filterMap f).length = l.length
  | [], _ => rfl
  | x :: xs, h => by
    have hx := h x (List.mem_cons_self x xs)
    obtain ⟨y, hy⟩ := Option.isSome_iff_exists.mp hx
    simp [List.filterMap_cons, hy,
      length_filterMap_of_isSome f xs (fun a ha => h a (List.mem_cons_of_mem x ha))]

theorem foldl_min_le_init : ∀ (xs : List ℚ) (a : ℚ), xs.foldl min a ≤ a
  | [], a => le_refl a
  | x :: xs, a =>
    le_trans (foldl_min_le_init xs (min a x)) (min_le_left a x)

theorem foldl_min_le_mem :
    ∀ (xs : List ℚ) (a x : ℚ), x ∈ xs → xs.foldl min a ≤ x
  | y :: ys, a, x, h => by
    rcases List.mem_cons.mp h with h1 | h2
    · subst h1
      exact le_trans (foldl_min_le_init ys (min a x)) (min_le_right a x)
    · exact foldl_min_le_mem ys (min a y) x h2

theorem foldl_min_choice :
    ∀ (xs : List ℚ) (a : ℚ), xs.foldl min a = a ∨ xs.foldl min a ∈ xs
  | [], a => Or.inl rfl
  | x :: xs, a => by
    rcases foldl_min_choice xs (min a x) with h | h
    · rcases min_choice a x with h2 | h2
      · exact Or.inl (by rw [List.foldl_cons, h, h2])
      · exact Or.inr (by
          rw [List.foldl_cons, h, h2]
          exact List.mem_cons_self x xs)
    · exact Or.inr (List.mem_cons_of_mem x h)

theorem foldl_max_init_le : ∀ (xs : List ℚ) (a : ℚ), a ≤ xs.foldl max a
  | [], a => le_refl a
  | x :: xs, a =>
    le_trans (le_max_left a x) (foldl_max_init_le xs (max a x))

theorem foldl_max_mem_le :
    ∀ (xs : List ℚ) (a x : ℚ), x ∈ xs → x ≤ xs.foldl max a
  | y :: ys, a, x, h => by
    rcases List.mem_cons.mp h with h1 | h2
    · subst h1
      exact le_trans (le_max_right a x) (foldl_max_init_le ys (max a x))
    · exact foldl_max_mem_le ys (max a y) x h2

theorem foldl_max_choice :
    ∀ (xs : List ℚ) (a : ℚ), xs.foldl max a = a ∨ xs.foldl max a ∈ xs
  | [], a => Or.inl rfl
  | x :: xs, a => by
    rcases foldl_max_choice xs (max a x) with h | h
    · rcases max_choice a x with h2 | h2
      · exact Or.inl (by rw [List.foldl_cons, h, h2])
      · exact Or.inr (by
          rw [List.foldl_cons, h, h2]
          exact List.mem_cons_self x xs)
    · exact Or.inr (List.mem_cons_of_mem x h)

theorem bufMin_mem : ∀ (xs : List ℚ), xs ≠ [] → bufMin xs ∈ xs
  | [], h => absurd rfl h
  | x :: xs, _ => by
    show xs.foldl min x ∈ x :: xs
    rcases foldl_min_choice xs x with h | h
    · rw [h]; exact List.mem_cons_self x xs
    · exact List.mem_cons_of_mem x h

theorem bufMin_le : ∀ (xs : List ℚ) (x : ℚ), x ∈ xs → bufMin xs ≤ x
  | y :: ys, x, h => by
    show ys.foldl min y ≤ x
    rcases List.mem_cons.mp h with h1 | h2
    · subst h1; exact foldl_min_le_init ys x
    · exact foldl_min_le_mem ys y x h2

theorem bufMax_mem : ∀ (xs : List ℚ), xs ≠ [] → bufMax xs ∈ xs
  | [], h => absurd rfl h
  | x :: xs, _ => by
    show xs.foldl max x ∈ x :: xs
    rcases foldl_max_choice xs x with h | h
    · rw [h]; exact List.mem_cons_self x xs
    · exact List.mem_cons_of_mem x h

theorem le_bufMax : ∀ (xs : List ℚ) (x : ℚ), x ∈ xs → x ≤ bufMax xs
  | y :: ys, x, h => by
    show x ≤ ys.foldl max y
    rcases List.mem_cons.mp h with h1 | h2
    · subst h1; exact foldl_max_init_le ys x
    · exact foldl_max_mem_le ys y x h2

/-! The claim theorems. -/

/-- C10: every non-sentinel record returned by an extractor is a
non-empty mapping — the metadata record always contains the
`DCMFileName` key set to the file's base name among its thirteen keys,
the statistics dict literal has exactly its three keys and the texture
dict literal exactly its four — so the truthiness conjunction gating row
creation in `process_dicom_directory` is equivalent to the test that all
three results are non-`None`. -/
theorem C10_truthiness_gate (fs : FileSystem) (p : String) :
    (∀ m : MetadataRecord, extract_dicom_metadata fs p = some m →
      ("DCMFileName", some (ospath_basename p)) ∈ m ∧
      m.length = metadata_keys.length + 1 ∧ m ≠ []) ∧
    statsDictKeys.length = 3 ∧
    glcmDictKeys.length = 4 ∧
    metaTruthy (extract_dicom_metadata fs p) =
      (extract_dicom_metadata fs p).isSome ∧
    statsTruthy (extract_image_statistics fs p) =
      (extract_image_statistics fs p).isSome ∧
    glcmTruthy (extract_glcm_features fs p) =
      (extract_glcm_features fs p).isSome ∧
    rowGate fs p =
      ((extract_dicom_metadata fs p).isSome &&
       (extract_image_statistics fs p).isSome &&
       (extract_glcm_features fs p).isSome) := by
  refine ⟨?_, rfl, rfl, metaTruthy_eq_isSome fs p, statsTruthy_eq_isSome fs p,
    glcmTruthy_eq_isSome fs p, rowGate_eq_isSome fs p⟩
  intro m hm
  unfold extract_dicom_metadata at hm
  cases h : (fs.content p).headerOk
  · simp only [h, Bool.false_eq_true, if_false] at hm
    exact Option.noConfusion hm
  · simp only [h, if_true, Option.some.injEq] at hm
    subst hm
    refine ⟨List.mem_append_right _ (List.mem_singleton.mpr rfl), ?_, ?_⟩
    · simp
    · simp [metadata_keys]

/-- Closed instance of `C10_truthiness_gate` at a concrete file. -/
theorem C10_witness :
    (∀ m : MetadataRecord, extract_dicom_metadata fsGood "D/a.dcm" = some m →
      ("DCMFileName", some (ospath_basename "D/a.dcm")) ∈ m ∧
      m.length = metadata_keys.length + 1 ∧ m ≠ []) ∧
    statsDictKeys.length = 3 ∧
    glcmDictKeys.length = 4 ∧
    metaTruthy (extract_dicom_metadata fsGood "D/a.dcm") =
      (extract_dicom_metadata fsGood "D/a.dcm").isSome ∧
    statsTruthy (extract_image_statistics fsGood "D/a.dcm") =
      (extract_image_statistics fsGood "D/a.dcm").isSome ∧
    glcmTruthy (extract_glcm_features fsGood "D/a.dcm") =
      (extract_glcm_features fsGood "D/a.dcm").isSome ∧
    rowGate fsGood "D/a.dcm" =
      ((extract_dicom_metadata fsGood "D/a.dcm").isSome &&
       (extract_image_statistics fsGood "D/a.dcm").isSome &&
       (extract_glcm_features fsGood "D/a.dcm").isSome) :=
  C10_truthiness_gate fsGood "D/a.dcm"

/-- C5 as amended: for every file whose header reads successfully, the
metadata extractor returns a record over exactly the fixed key set (the
twelve header fields followed by the source filename), with every header
field absent from the source mapped to null rather than omitted, and the
`DCMFileName` key set to the file's base name.  The amendment: the key
set carries a single `PixelSpacing` field, not the two pixel-spacing
components the claim names — the `PixelSpacing_X`/`PixelSpacing_Y` split
exists only in `clean_dataframe`, which the pipeline never calls (see
`C5_counterexample`). -/
theorem C5_metadata_fixed_keys (fs : FileSystem) (p : String)
    (h : (fs.content p).headerOk = true) :
    ∃ m : MetadataRecord, extract_dicom_metadata fs p = some m ∧
      m.map Prod.fst = metadata_keys ++ ["DCMFileName"] ∧
      (∀ k ∈ metadata_keys, (k, headerAttr (fs.content p) k) ∈ m) ∧
      (∀ k ∈ metadata_keys, headerAttr (fs.content p) k = none →
        (k, (none : Option String)) ∈ m) ∧
      ("DCMFileName", some (ospath_basename p)) ∈ m := by
  refine ⟨metadata_keys.map (fun key => (key, headerAttr (fs.content p) key)) ++
    [("DCMFileName", some (ospath_basename p))], ?_, ?_, ?_, ?_, ?_⟩
  · unfold extract_dicom_metadata
    simp only [h, if_true]
  · rfl
  · intro k hk
    exact List.mem_append_left _ (List.mem_map.mpr ⟨k, hk, rfl⟩)
  · intro k hk hnone
    refine List.mem_append_left _ (List.mem_map.mpr ⟨k, hk, ?_⟩)
    rw [hnone]
  · exact List.mem_append_right _ (List.mem_singleton.mpr rfl)

/-- Closed instance of `C5_metadata_fixed_keys` at a concrete file. -/
theorem C5_witness :
    ∃ m : MetadataRecord, extract_dicom_metadata fsGood "D/a.dcm" = some m ∧
      m.map Prod.fst = metadata_keys ++ ["DCMFileName"] ∧
      (∀ k ∈ metadata_keys, (k, headerAttr (fsGood.content "D/a.dcm") k) ∈ m) ∧
      (∀ k ∈ metadata_keys, headerAttr (fsGood.content "D/a.dcm") k = none →
        (k, (none : Option String)) ∈ m) ∧
      ("DCMFileName", some (ospath_basename "D/a.dcm")) ∈ m :=
  C5_metadata_fixed_keys fsGood "D/a.dcm" rfl

/-- C5 counterexample to the claim as written: the metadata record of a
concrete readable file carries the single `PixelSpacing` key and no
`PixelSpacing_X`/`PixelSpacing_Y` pair, so the record is not over a key
set with two pixel-spacing components. -/
theorem C5_counterexample :
    ∃ m : MetadataRecord, extract_dicom_metadata fsGood "D/a.dcm" = some m ∧
      "PixelSpacing" ∈ m.map Prod.fst ∧
      "PixelSpacing_X" ∉ m.map Prod.fst ∧
      "PixelSpacing_Y" ∉ m.map Prod.fst := by
  refine ⟨_, rfl, ?_, ?_, ?_⟩ <;> decide

/-- C3: on a file whose read fails, each extractor returns the `None`
sentinel (never a partial record) after logging the file path and the
underlying error, and a failing file leaves the directory walk untouched
(removing it from the walk yields the same rows).  The final conjunct
records the divergence from the claim's last clause: the corrupt file in
`fsCorrupt` is alone in its scan-type directory, so its failure leaves
that table empty and the parallel run aborts with an `IndexError` at
`scan_df['ScanType'].unique()[0]`. -/
theorem C3_failure_containment (fs : FileSystem) (p : String) :
    ((fs.content p).headerOk = false →
      extract_dicom_metadata fs p = none ∧
      extract_dicom_metadata_log fs p = [(p, (fs.content p).err)]) ∧
    ((fs.content p).pixelsOk = false →
      extract_image_statistics fs p = none ∧
      extract_image_statistics_log fs p = [(p, (fs.content p).err)] ∧
      extract_glcm_features fs p = none ∧
      extract_glcm_features_log fs p = [(p, (fs.content p).err)]) ∧
    (∀ root pre post file, rowGate fs (ospath_join root file) = false →
      process_walk fs [(root, pre ++ file :: post)] =
        process_walk fs [(root, pre ++ post)]) ∧
    process_all_subjects_parallel fsCorrupt "R" =
      Except.error "IndexError: index 0 is out of bounds for axis 0 with size 0" := by
  refine ⟨?_, ?_, ?_, rfl⟩
  · intro h
    unfold extract_dicom_metadata extract_dicom_metadata_log
    simp [h]
  · intro h
    unfold extract_image_statistics extract_image_statistics_log
      extract_glcm_features extract_glcm_features_log
    simp [h]
  · intro root pre post file hgate
    unfold process_walk
    simp only [List.flatMap_cons, List.flatMap_nil, List.append_nil]
    rw [List.filterMap_append, List.filterMap_append, List.filterMap_cons]
    cases hend : strEndsWith file ".dcm" <;> simp [hend, hgate]

/-- Closed instance of `C3_failure_containment`: the corrupt file is
skipped with its path and error logged. -/
theorem C3_witness :
    extract_dicom_metadata fsBad "x.dcm" = none ∧
    extract_dicom_metadata_log fsBad "x.dcm" = [("x.dcm", "file truncated")] ∧
    extract_image_statistics fsBad "x.dcm" = none ∧
    extract_glcm_features fsBad "x.dcm" = none :=
  ⟨((C3_failure_containment fsBad "x.dcm").1 rfl).1,
   ((C3_failure_containment fsBad "x.dcm").1 rfl).2,
   ((C3_failure_containment fsBad "x.dcm").2.1 rfl).1,
   ((C3_failure_containment fsBad "x.dcm").2.1 rfl).2.2.1⟩

/-- C4: the Subject Aggregator returns one table per existing scan-type
subdirectory, in the fixed enumeration order `FLAIR, T1w, T1wCE, T2w`,
each labelled with the scan type that produced it; missing
subdirectories contribute no entry. -/
theorem C4_subject_aggregator (fs : FileSystem) (subject_path : String) :
    process_subject fs subject_path =
      (scan_types.filter
        (fun st => fs.pathExists (ospath_join subject_path st))).map
        (subjectTable fs subject_path) ∧
    (process_subject fs subject_path).length =
      (scan_types.filter
        (fun st => fs.pathExists (ospath_join subject_path st))).length ∧
    (process_subject fs subject_path).map ScanTable.scanType =
      scan_types.filter (fun st => fs.pathExists (ospath_join subject_path st)) := by
  have key : process_subject fs subject_path =
      (scan_types.filter
        (fun st => fs.pathExists (ospath_join subject_path st))).map
        (subjectTable fs subject_path) := by
    unfold process_subject subjectTable
    rw [← filterMap_if_eq_map_filter]
  refine ⟨key, ?_, ?_⟩
  · rw [key, List.length_map]
  · rw [key, List.map_map]
    have hid : ScanTable.scanType ∘ subjectTable fs subject_path = id := by
      funext st; rfl
    rw [hid, List.map_id]

/-- C1: the Directory Aggregator's output has exactly one row per file
whose name ends in `.dcm` and on which all three extractors return a
non-sentinel record (that row the union of the three records), and no
row for any other file; hence a walk in which every listed file
qualifies and succeeds yields exactly as many rows as files. -/
theorem C1_directory_aggregator (fs : FileSystem)
    (walkList : List (String × List String)) :
    process_walk fs walkList = specDirRows fs walkList ∧
    ((∀ rf ∈ walkList, ∀ file ∈ rf.2,
        strEndsWith file ".dcm" = true ∧
        (extract_dicom_metadata fs (ospath_join rf.1 file)).isSome = true ∧
        (extract_image_statistics fs (ospath_join rf.1 file)).isSome = true ∧
        (extract_glcm_features fs (ospath_join rf.1 file)).isSome = true) →
      (process_walk fs walkList).length =
        (walkList.map (fun rf => rf.2.length)).sum) := by
  have key : process_walk fs walkList = specDirRows fs walkList := by
    unfold process_walk specDirRows
    congr 1
    funext rf
    congr 1
    funext file
    cases hend : strEndsWith file ".dcm"
    · simp [hend]
    · simp only [hend, if_true]
      rw [rowGate_eq_isSome]
      cases hm : extract_dicom_metadata fs (ospath_join rf.1 file) <;>
        cases hs : extract_image_statistics fs (ospath_join rf.1 file) <;>
          cases hg : extract_glcm_features fs (ospath_join rf.1 file) <;>
            simp
  refine ⟨key, ?_⟩
  intro h
  rw [key]
  unfold specDirRows
  rw [List.length_flatMap]
  congr 1
  apply List.map_congr_left
  intro rf hrf
  show (rf.2.filterMap _).length = rf.2.length
  apply length_filterMap_of_isSome
  intro file hfile
  obtain ⟨hend, hm, hs, hg⟩ := h rf hrf file hfile
  obtain ⟨m, hm'⟩ := Option.isSome_iff_exists.mp hm
  obtain ⟨s, hs'⟩ := Option.isSome_iff_exists.mp hs
  obtain ⟨g, hg'⟩ := Option.isSome_iff_exists.mp hg
  simp [hend, hm', hs', hg']

/-- Closed instance of `C1_directory_aggregator`: two qualifying,
succeeding files yield exactly two rows. -/
theorem C1_witness :
    (process_walk fsGood [("D", ["a.dcm", "b.dcm"])]).length =
      ([("D", ["a.dcm", "b.dcm"])].map
        (fun rf : String × List String => rf.2.length)).sum ∧
    (process_walk fsGood [("D", ["a.dcm", "b.dcm"])]).length = 2 := by
  have h := (C1_directory_aggregator fsGood [("D", ["a.dcm", "b.dcm"])]).2
    (by decide)
  exact ⟨h, by rw [h]; decide⟩

/-- C2: contrary to the claim, empty inputs make the Parallel Driver
raise: an empty subject set reaches `pd.concat([])`, which raises
`ValueError`, and a subject whose scan-type subdirectory exists but
contains zero qualifying files yields an empty table on which
`scan_df['ScanType'].unique()[0]` raises `IndexError`.  Only the
Directory Aggregator itself returns an empty table without error. -/
theorem C2_driver_errors :
    process_all_subjects_parallel fsEmptyRoot "R" =
      Except.error "ValueError: No objects to concatenate" ∧
    process_all_subjects_parallel fsEmptyScan "R" =
      Except.error "IndexError: index 0 is out of bounds for axis 0 with size 0" ∧
    process_dicom_directory fsEmptyScan "R/S1/FLAIR" = [] :=
  ⟨rfl, rfl, rfl⟩

theorem rescaled_spec (px : List (List ℤ))
    (hlt : bufMin (flatPixels px) < bufMax (flatPixels px)) :
    rescaledBuffer px = (flatPixels px).map (fun v =>
      toUint8 ((v - bufMin (flatPixels px)) *
        (255 / (bufMax (flatPixels px) - bufMin (flatPixels px))))) := by
  unfold rescaledBuffer normalizeMinMax
  rw [List.map_map]
  apply List.map_congr_left
  intro x _
  have hsub : (0 : ℚ) < bufMax (flatPixels px) - bufMin (flatPixels px) :=
    sub_pos.mpr hlt
  simp only [Function.comp, if_pos hsub]
  congr 1
  ring

theorem toUint8_le_255 {q : ℚ} (h : q ≤ 255) : toUint8 q ≤ 255 := by
  unfold toUint8
  have h1 : ⌊q⌋ ≤ 255 := by
    have := Int.floor_le_floor h
    rwa [show ⌊(255 : ℚ)⌋ = 255 by norm_num] at this
  omega

theorem toUint8_zero : toUint8 0 = 0 := by
  unfold toUint8
  norm_num

theorem toUint8_255 : toUint8 255 = 255 := by
  unfold toUint8
  norm_num
  decide

/-- C7: the Statistics Extractor rescales the pixel buffer linearly so
that the buffer's minimum maps to 0 and its maximum maps to 255,
quantizes to 8-bit (every rescaled value is at most 255), and computes
the mean and the population standard deviation on that rescaled
buffer. -/
theorem C7_statistics_rescale (fs : FileSystem) (p : String)
    (hok : (fs.content p).pixelsOk = true)
    (hne : flatPixels (fs.content p).pixels ≠ [])
    (hlt : bufMin (flatPixels (fs.content p).pixels) <
           bufMax (flatPixels (fs.content p).pixels)) :
    extract_image_statistics fs p = some
      { meanIntensity := listMean
          ((rescaledBuffer (fs.content p).pixels).map (fun v : ℕ => (v : ℚ)))
        varIntensity := listVar
          ((rescaledBuffer (fs.content p).pixels).map (fun v : ℕ => (v : ℚ)))
        hist := calcHist256 (rescaledBuffer (fs.content p).pixels) } ∧
    0 ∈ rescaledBuffer (fs.content p).pixels ∧
    255 ∈ rescaledBuffer (fs.content p).pixels ∧
    (∀ v ∈ rescaledBuffer (fs.content p).pixels, v ≤ 255) ∧
    (∀ r, extract_image_statistics fs p = some r →
      r.stdIntensity = Real.sqrt
        (((listVar ((rescaledBuffer (fs.content p).pixels).map
          (fun v : ℕ => (v : ℚ)))) : ℚ) : ℝ)) := by
  set xs := flatPixels (fs.content p).pixels with hxs
  set mn := bufMin xs with hmn
  set mx := bufMax xs with hmx
  have hsub : (0 : ℚ) < mx - mn := sub_pos.mpr hlt
  have hrw := rescaled_spec (fs.content p).pixels hlt
  rw [← hxs, ← hmn, ← hmx] at hrw
  have hex : extract_image_statistics fs p = some
      { meanIntensity := listMean
          ((rescaledBuffer (fs.content p).pixels).map (fun v : ℕ => (v : ℚ)))
        varIntensity := listVar
          ((rescaledBuffer (fs.content p).pixels).map (fun v : ℕ => (v : ℚ)))
        hist := calcHist256 (rescaledBuffer (fs.content p).pixels) } := by
    unfold extract_image_statistics
    simp only [hok, if_true]
  refine ⟨hex, ?_, ?_, ?_, ?_⟩
  · rw [hrw]
    refine List.mem_map.mpr ⟨mn, bufMin_mem xs hne, ?_⟩
    rw [show (mn - mn) * (255 / (mx - mn)) = 0 by ring]
    exact toUint8_zero
  · rw [hrw]
    refine List.mem_map.mpr ⟨mx, bufMax_mem xs hne, ?_⟩
    rw [show (mx - mn) * (255 / (mx - mn)) = 255 by
      rw [← mul_div_assoc]
      exact mul_div_cancel_left₀ 255 hsub.ne']
    exact toUint8_255
  · rw [hrw]
    intro v hv
    obtain ⟨x, hx, hveq⟩ := List.mem_map.mp hv
    subst hveq
    apply toUint8_le_255
    have hle : x ≤ mx := le_bufMax xs x hx
    calc (x - mn) * (255 / (mx - mn))
        ≤ (mx - mn) * (255 / (mx - mn)) := by
          apply mul_le_mul_of_nonneg_right (sub_le_sub_right hle mn)
          positivity
      _ = 255 := by
          rw [← mul_div_assoc]
          exact mul_div_cancel_left₀ 255 hsub.ne'
  · intro r hr
    rw [hex] at hr
    injection hr with hr
    rw [← hr]
    rfl

/-- Closed instance of `C7_statistics_rescale` at a concrete image with
minimum 0 and maximum 300. -/
theorem C7_witness :
    0 ∈ rescaledBuffer (fsGood.content "D/a.dcm").pixels ∧
    255 ∈ rescaledBuffer (fsGood.content "D/a.dcm").pixels ∧
    (∀ v ∈ rescaledBuffer (fsGood.content "D/a.dcm").pixels, v ≤ 255) := by
  have h := C7_statistics_rescale fsGood "D/a.dcm" rfl (by decide)
    (by norm_num [fsGood, goodContent, flatPixels, bufMin, bufMax])
  exact ⟨h.2.1, h.2.2.1, h.2.2.2.1⟩

/-- C6: the Statistics Extractor's entropy equals the negative sum over
the 256 histogram bins of `count * log2(count + 1e-7)` where `count` is
the raw (not probability-normalized) bin count of the rescaled 8-bit
buffer; in particular, when every rescaled pixel falls in the single bin
`v`, the entropy is `-n * log2(n + 1e-7)` for `n` the pixel count. -/
theorem C6_entropy_formula (fs : FileSystem) (p : String)
    (hok : (fs.content p).pixelsOk = true) :
    (∀ r, extract_image_statistics fs p = some r →
      r.entropyValue = -(∑ v ∈ Finset.range 256,
        (((rescaledBuffer (fs.content p).pixels).count v : ℝ) *
          Real.logb 2
            (((rescaledBuffer (fs.content p).pixels).count v : ℝ) +
              ((histEps : ℚ) : ℝ))))) ∧
    (∀ r v, extract_image_statistics fs p = some r → v < 256 →
      (∀ x ∈ rescaledBuffer (fs.content p).pixels, x = v) →
      r.entropyValue =
        -(((rescaledBuffer (fs.content p).pixels).length : ℝ) *
          Real.logb 2
            (((rescaledBuffer (fs.content p).pixels).length : ℝ) +
              ((histEps : ℚ) : ℝ)))) := by
  set buf := rescaledBuffer (fs.content p).pixels with hbuf
  have hrec : ∀ r, extract_image_statistics fs p = some r →
      r.hist = calcHist256 buf := by
    intro r hr
    unfold extract_image_statistics at hr
    simp only [hok, if_true, Option.some.injEq] at hr
    rw [← hr]
  have hform : ∀ r, extract_image_statistics fs p = some r →
      r.entropyValue = -(∑ v ∈ Finset.range 256,
        ((buf.count v : ℝ) *
          Real.logb 2 ((buf.count v : ℝ) + ((histEps : ℚ) : ℝ)))) := by
    intro r hr
    show entropyOfHist r.hist = _
    rw [hrec r hr]
    unfold entropyOfHist calcHist256
    rw [List.map_map]
    rfl
  refine ⟨hform, ?_⟩
  intro r v hr hv hall
  rw [hform r hr]
  congr 1
  rw [Finset.sum_eq_single v]
  · rw [List.count_eq_length.mpr (fun b hb => (hall b hb).symm)]
  · intro w _ hw
    have hnot : w ∉ buf := fun hmem => hw (hall w hmem)
    rw [List.count_eq_zero.mpr hnot]
    simp
  · intro habs
    exact absurd (Finset.mem_range.mpr hv) habs

/-- Closed instance of `C6_entropy_formula`: a constant image whose four
pixels all rescale into bin 0 has entropy `-4 * log2(4 + 1e-7)`. -/
theorem C6_witness :
    ∃ r, extract_image_statistics fsFlat "f.dcm" = some r ∧
      r.entropyValue = -((4 : ℝ) *
        Real.logb 2 ((4 : ℝ) + ((histEps : ℚ) : ℝ))) := by
  have hbuf : rescaledBuffer (fsFlat.content "f.dcm").pixels = [0, 0, 0, 0] := by
    norm_num [rescaledBuffer, normalizeMinMax, flatPixels, fsFlat, flatContent,
      goodContent, bufMin, bufMax, toUint8]
  refine ⟨_, rfl, ?_⟩
  have h2 := (C6_entropy_formula fsFlat "f.dcm" rfl).2 _ 0 rfl (by norm_num)
    (by intro x hx; rw [hbuf] at hx; simpa using hx)
  rw [h2, hbuf]
  norm_num


theorem rowPairs_mem :
    ∀ (row : List ℕ) (ab : ℕ × ℕ), ab ∈ rowPairs row →
      ab.1 ∈ row ∧ ab.2 ∈ row
  | [], ab, h => by simp [rowPairs] at h
  | [x], ab, h => by simp [rowPairs] at h
  | x :: y :: rest, ab, h => by
    rw [rowPairs] at h
    rcases List.mem_cons.mp h with h1 | h2
    · subst h1
      exact ⟨List.mem_cons_self x (y :: rest),
        List.mem_cons_of_mem x (List.mem_cons_self y rest)⟩
    · have ih := rowPairs_mem (y :: rest) ab h2
      exact ⟨List.mem_cons_of_mem x ih.1, List.mem_cons_of_mem x ih.2⟩

theorem u8cast_lt (px : List (List ℤ)) :
    ∀ row ∈ u8cast px, ∀ v ∈ row, v < 256 := by
  intro row hrow v hv
  obtain ⟨r0, _, hr0⟩ := List.mem_map.mp hrow
  subst hr0
  obtain ⟨z, _, hz⟩ := List.mem_map.mp hv
  subst hz
  have h1 : (0 : ℤ) ≤ z % 256 := Int.emod_nonneg z (by norm_num)
  have h2 : z % 256 < 256 := Int.emod_lt_of_pos z (by norm_num)
  omega

theorem hPairs_lt (px : List (List ℤ)) :
    ∀ ab ∈ hPairs (u8cast px), ab.1 < 256 ∧ ab.2 < 256 := by
  intro ab hab
  obtain ⟨row, hrow, hmem⟩ := List.mem_flatMap.mp hab
  have h := rowPairs_mem row ab hmem
  exact ⟨u8cast_lt px row hrow ab.1 h.1, u8cast_lt px row hrow ab.2 h.2⟩

theorem sum_count_eq_length :
    ∀ l : List (ℕ × ℕ), (∀ ab ∈ l, ab.1 < 256 ∧ ab.2 < 256) →
      (∑ a : Fin 256, ∑ b : Fin 256, l.count ((a : ℕ), (b : ℕ))) = l.length
  | [], _ => by simp
  | ab :: l, h => by
    have hab := h ab (List.mem_cons_self ab l)
    have ih := sum_count_eq_length l (fun x hx => h x (List.mem_cons_of_mem _ hx))
    have hone : (∑ a : Fin 256, ∑ b : Fin 256,
        (if (((a : ℕ), (b : ℕ)) : ℕ × ℕ) = ab then 1 else 0)) = 1 := by
      rw [Finset.sum_eq_single (⟨ab.1, hab.1⟩ : Fin 256)]
      · rw [Finset.sum_eq_single (⟨ab.2, hab.2⟩ : Fin 256)]
        · simp
        · intro b _ hb
          rw [if_neg]
          intro hcontra
          apply hb
          apply Fin.ext
          exact congrArg Prod.snd hcontra
        · intro habs
          exact absurd (Finset.mem_univ _) habs
      · intro a _ ha
        apply Finset.sum_eq_zero
        intro b _
        rw [if_neg]
        intro hcontra
        apply ha
        apply Fin.ext
        exact congrArg Prod.fst hcontra
      · intro habs
        exact absurd (Finset.mem_univ _) habs
    calc (∑ a : Fin 256, ∑ b : Fin 256, (ab :: l).count ((a : ℕ), (b : ℕ)))
        = (∑ a : Fin 256, ∑ b : Fin 256,
            (l.count ((a : ℕ), (b : ℕ)) +
              if (((a : ℕ), (b : ℕ)) : ℕ × ℕ) = ab then 1 else 0)) := by
          apply Finset.sum_congr rfl
          intro a _
          apply Finset.sum_congr rfl
          intro b _
          by_cases hc : (((a : ℕ), (b : ℕ)) : ℕ × ℕ) = ab
          · subst hc
            simp [List.count_cons]
          · simp [List.count_cons, hc]
      _ = (∑ a : Fin 256, ∑ b : Fin 256, l.count ((a : ℕ), (b : ℕ))) +
            (∑ a : Fin 256, ∑ b : Fin 256,
              if (((a : ℕ), (b : ℕ)) : ℕ × ℕ) = ab then 1 else 0) := by
          rw [← Finset.sum_add_distrib]
          apply Finset.sum_congr rfl
          intro a _
          rw [← Finset.sum_add_distrib]
      _ = l.length + 1 := by rw [ih, hone]
      _ = (ab :: l).length := by simp

theorem graycomatrix_spec_entry (img : List (List ℕ))
    (hb : ∀ ab ∈ hPairs img, ab.1 < 256 ∧ ab.2 < 256) (a b : Fin 256) :
    graycomatrix img a b = specGlcmEntry img a b := by
  unfold graycomatrix specGlcmEntry
  have h1 : (∑ x : Fin 256, ∑ y : Fin 256,
      (hPairs img).count ((x : ℕ), (y : ℕ))) = (hPairs img).length :=
    sum_count_eq_length _ hb
  have h2 : (∑ x : Fin 256, ∑ y : Fin 256,
      (hPairs img).count ((y : ℕ), (x : ℕ))) = (hPairs img).length := by
    rw [Finset.sum_comm]
    exact sum_count_eq_length _ hb
  have htot : (∑ x : Fin 256, ∑ y : Fin 256,
      ((hPairs img).count ((x : ℕ), (y : ℕ)) +
        (hPairs img).count ((y : ℕ), (x : ℕ)))) = 2 * (hPairs img).length := by
    calc (∑ x : Fin 256, ∑ y : Fin 256,
          ((hPairs img).count ((x : ℕ), (y : ℕ)) +
            (hPairs img).count ((y : ℕ), (x : ℕ))))
        = (∑ x : Fin 256, ∑ y : Fin 256,
            (hPairs img).count ((x : ℕ), (y : ℕ))) +
          (∑ x : Fin 256, ∑ y : Fin 256,
            (hPairs img).count ((y : ℕ), (x : ℕ))) := by
          rw [← Finset.sum_add_distrib]
          apply Finset.sum_congr rfl
          intro x _
          rw [← Finset.sum_add_distrib]
      _ = 2 * (hPairs img).length := by rw [h1, h2]; ring
  rw [htot]
  push_cast
  ring

/-- C8: the Texture Extractor casts the pixel buffer directly to 8-bit
integers with no prior min-max rescaling (each quantized pixel is its
own residue modulo 256, independent of the buffer's range — unlike the
Statistics Extractor's min-max rescale), builds the co-occurrence matrix
with the single pixel-offset distance 1, the single angle 0, 256 gray
levels, symmetric accumulation and normalization — each entry being the
two directed adjacency counts divided by twice the number of adjacent
pairs — and returns exactly the four scalars contrast, correlation,
energy and homogeneity derived from that matrix. -/
theorem C8_texture_extractor (fs : FileSystem) (p : String)
    (hok : (fs.content p).pixelsOk = true) :
    extract_glcm_features fs p =
      some { glcm := graycomatrix (u8cast (fs.content p).pixels) } ∧
    u8cast (fs.content p).pixels =
      (fs.content p).pixels.map (fun row => row.map (fun z => (z % 256).toNat)) ∧
    (∀ a b : Fin 256, graycomatrix (u8cast (fs.content p).pixels) a b =
      specGlcmEntry (u8cast (fs.content p).pixels) a b) ∧
    glcmDictKeys = ["GLCM_Contrast", "GLCM_Correlation", "GLCM_Energy",
      "GLCM_Homogeneity"] := by
  refine ⟨?_, rfl, ?_, rfl⟩
  · unfold extract_glcm_features
    simp only [hok, if_true]
  · intro a b
    exact graycomatrix_spec_entry _ (hPairs_lt _) a b

/-- Closed instance of `C8_texture_extractor` at a concrete file. -/
theorem C8_witness :
    extract_glcm_features fsGood "D/a.dcm" =
      some { glcm := graycomatrix (u8cast (fsGood.content "D/a.dcm").pixels) } ∧
    (∀ a b : Fin 256,
      graycomatrix (u8cast (fsGood.content "D/a.dcm").pixels) a b =
        specGlcmEntry (u8cast (fsGood.content "D/a.dcm").pixels) a b) :=
  ⟨(C8_texture_extractor fsGood "D/a.dcm" rfl).1,
   (C8_texture_extractor fsGood "D/a.dcm" rfl).2.2.1⟩

theorem except_ok_bind {α β : Type} (a : α) (f : α → Except String β) :
    (Except.ok a >>= f) = f a := rfl

theorem regroup_ok :
    ∀ (ts : List ScanTable) (d : String → List ScanTable),
      (∀ t ∈ ts, t.rows.isEmpty = false) →
      ts.foldlM regroupStep d = Except.ok
        (fun k => d k ++ ts.filter (fun t => decide (k = t.scanType)))
  | [], d, _ => by
    rw [List.foldlM_nil]
    show Except.ok d = _
    congr 1
    funext k
    simp
  | t :: ts, d, h => by
    have ht := h t (List.mem_cons_self t ts)
    rw [List.foldlM_cons]
    have hstep : regroupStep d t = Except.ok
        (fun k => if k = t.scanType then d k ++ [t] else d k) := by
      unfold regroupStep uniqueFirstScanType
      rw [ht]
      rfl
    rw [hstep, except_ok_bind,
      regroup_ok ts _ (fun x hx => h x (List.mem_cons_of_mem t hx))]
    congr 1
    funext k
    by_cases hk : k = t.scanType
    · simp [List.filter_cons, hk]
    · simp [List.filter_cons, hk]

theorem regroup_ok_nil (ts : List ScanTable)
    (h : ∀ t ∈ ts, t.rows.isEmpty = false) :
    ts.foldlM regroupStep (fun _ => ([] : List ScanTable)) =
      Except.ok (fun k => ts.filter (fun t => decide (k = t.scanType))) := by
  rw [regroup_ok ts _ h]
  rfl

theorem concat_ok :
    ∀ (sts : List String) (bucket : String → List ScanTable),
      (∀ st ∈ sts, (bucket st).isEmpty = false) →
      (sts.mapM (fun scan_type => do
          let rows ← pdConcat (bucket scan_type)
          Except.ok (scan_type, rows)) :
        Except String (List (String × List FeatureRow))) =
      Except.ok (sts.map (fun st => (st, (bucket st).flatMap ScanTable.rows)))
  | [], _, _ => by rw [List.mapM_nil]; rfl
  | st :: sts, bucket, h => by
    have hst := h st (List.mem_cons_self st sts)
    rw [List.mapM_cons]
    have hpd : pdConcat (bucket st) =
        Except.ok ((bucket st).flatMap ScanTable.rows) := by
      unfold pdConcat
      rw [hst]
      rfl
    rw [hpd, concat_ok sts bucket (fun x hx => h x (List.mem_cons_of_mem st hx))]
    rfl

theorem driver_ok (fs : FileSystem) (root : String)
    (h1 : ∀ t ∈ allScanTables fs root, t.rows.isEmpty = false)
    (h2 : ∀ st ∈ scan_types,
      ((allScanTables fs root).filter
        (fun t => decide (st = t.scanType))).isEmpty = false) :
    process_all_subjects_parallel fs root =
      Except.ok (scan_types.map (fun st => (st, bucketRows fs root st))) := by
  unfold process_all_subjects_parallel
  rw [regroup_ok_nil _ h1]
  simp only [except_ok_bind]
  rw [concat_ok _ _ h2]
  rfl

/-- C9: over an unchanged directory tree, a rerun whose subject
enumeration is any permutation of the first run's (the only scheduling
freedom; `pool.imap` itself preserves submission order) succeeds exactly
when the first run does, with identical row counts for each scan type
and the same multiset of per-row source filenames in each scan-type
bucket (hence the same set of (filename, scan-type) pairs), though row
order may differ. -/
theorem C9_rerun_permutation (fs : FileSystem) (ld2 : String → List String)
    (root : String)
    (hperm : (fs.listdir root).Perm (ld2 root))
    (h1 : ∀ t ∈ allScanTables fs root, t.rows.isEmpty = false)
    (h2 : ∀ st ∈ scan_types,
      ((allScanTables fs root).filter
        (fun t => decide (st = t.scanType))).isEmpty = false) :
    process_all_subjects_parallel fs root =
      Except.ok (scan_types.map (fun st => (st, bucketRows fs root st))) ∧
    process_all_subjects_parallel { fs with listdir := ld2 } root =
      Except.ok (scan_types.map (fun st =>
        (st, bucketRows { fs with listdir := ld2 } root st))) ∧
    (∀ st, (bucketRows fs root st).length =
      (bucketRows { fs with listdir := ld2 } root st).length) ∧
    (∀ st, (((bucketRows fs root st).map rowFileName :
        List (Option String)) : Multiset (Option String)) =
      (((bucketRows { fs with listdir := ld2 } root st).map rowFileName :
        List (Option String)) : Multiset (Option String))) := by
  have htab : (allScanTables fs root).Perm
      (allScanTables { fs with listdir := ld2 } root) := by
    unfold allScanTables subjectDirs
    exact List.Perm.flatMap_right _ (List.Perm.filterMap _ hperm)
  have h1' : ∀ t ∈ allScanTables { fs with listdir := ld2 } root,
      t.rows.isEmpty = false :=
    fun t ht => h1 t (htab.mem_iff.mpr ht)
  have hfil : ∀ st, ((allScanTables fs root).filter
      (fun t => decide (st = t.scanType))).Perm
      ((allScanTables { fs with listdir := ld2 } root).filter
        (fun t => decide (st = t.scanType))) :=
    fun st => htab.filter _
  have h2' : ∀ st ∈ scan_types,
      ((allScanTables { fs with listdir := ld2 } root).filter
        (fun t => decide (st = t.scanType))).isEmpty = false := by
    intro st hst
    have hne := h2 st hst
    rw [List.isEmpty_eq_false] at hne ⊢
    have hlen := (hfil st).length_eq
    intro hcontra
    rw [hcontra] at hlen
    simp only [List.length_nil] at hlen
    exact hne (List.length_eq_zero.mp hlen)
  have hrows : ∀ st, (bucketRows fs root st).Perm
      (bucketRows { fs with listdir := ld2 } root st) := by
    intro st
    unfold bucketRows
    exact List.Perm.flatMap_right _ (hfil st)
  refine ⟨driver_ok fs root h1 h2, driver_ok _ root h1' h2', ?_, ?_⟩
  · intro st
    exact (hrows st).length_eq
  · intro st
    exact Multiset.coe_eq_coe.mpr ((hrows st).map rowFileName)

/-- Closed instance of `C9_rerun_permutation`: two subjects enumerated
in opposite orders give per-scan-type buckets of equal length. -/
theorem C9_witness :
    process_all_subjects_parallel fsPerm1 "R" =
      Except.ok (scan_types.map (fun st => (st, bucketRows fsPerm1 "R" st))) ∧
    (∀ st, (bucketRows fsPerm1 "R" st).length =
      (bucketRows { fsPerm1 with listdir := fsPerm2.listdir } "R" st).length) := by
  have h := C9_rerun_permutation fsPerm1 fsPerm2.listdir "R"
    (List.Perm.swap "S2" "S1" []) (by decide) (by decide)
  exact ⟨h.1, h.2.2.1⟩

end BraTS
